import Mathlib

/-!
Verification of the carlitos compiler core (semantic analysis and
optimization over the AST).

The data model and operations below are a shallow embedding of the
repository's source.  The JavaScript/TypeScript mutation discipline
(nodes mutated in place, contexts mutated through parent references)
is rendered as explicit state threading: `analyze` operations return
`Except Err Ctx`, and `optimize` operations return rewritten trees.

Parts of the repository that are referenced by the source under
analysis but whose files are not present (Context, Parameter,
VariableExpression, Call, IfStatement, WhileStatement, BreakStatement,
ReturnStatement, Program and the per-node optimize methods other than
FunctionObject.optimize) are modelled from the specification; each such
definition carries a doc comment saying so.
-/

mutual
/-- Expressions of the AST, from the parser's constructor calls:
BooleanLiteral, NumericLiteral, VariableExpression, BinaryExpression,
UnaryExpression, Call.  A call's callee is a variable expression, held
here as its identifier; arguments carry an optional parameter name. -/
inductive Exp where
  | boollit (b : Bool)
  | numlit (n : Int)
  | varExp (name : String)
  | binary (op : String) (left right : Exp)
  | unary (op : String) (operand : Exp)
  | call (callee : String) (args : Args)

/-- Argument lists of a Call node: each argument is an optional
identifier (for binding by name) and an expression. -/
inductive Args where
  | nil
  | cons (id : Option String) (e : Exp) (rest : Args)
end

/-- A Parameter node: an identifier and, for optional parameters, a
default expression.  `isRequired` of the source corresponds to the
constructor used. -/
inductive Param where
  | required (id : String)
  | optional (id : String) (dflt : Exp)

def Param.id : Param → String
  | .required i => i
  | .optional i _ => i

def Param.isReq : Param → Bool
  | .required _ => true
  | .optional _ _ => false

mutual
/-- Statements of the AST: AssignmentStatement (targets are variable
expressions, held as identifiers), BreakStatement, ReturnStatement,
WhileStatement, IfStatement (cases plus alternate suite, an absent
else being the empty suite), FunctionDeclaration. -/
inductive Stmt where
  | assignment (targets : List String) (sources : List Exp)
  | breakStmt
  | returnStmt (e : Option Exp)
  | whileStmt (test : Exp) (body : Stmts)
  | ifStmt (cases : Cases) (alternate : Stmts)
  | funDecl (id : String) (params : List Param) (body : Stmts)
/-- A statement list (a suite / function body / program body). -/
inductive Stmts where
  | nil
  | cons (s : Stmt) (rest : Stmts)
/-- The cases of an IfStatement: a test expression and a body each. -/
inductive Cases where
  | nil
  | cons (test : Exp) (body : Stmts) (rest : Cases)
end

def Stmts.append : Stmts → Stmts → Stmts
  | .nil, l => l
  | .cons s r, l => .cons s (r.append l)

/- ------------------------------------------------------------------
Optimizer
------------------------------------------------------------------ -/

/-- Modelled from the spec: constant folding of a binary expression
over two numeric literal operands (numeric `+`, `-`, `*` and the
comparisons); any other operator is left in place. -/
def foldNum (op : String) (a b : Int) : Exp :=
  if op = "+" then .numlit (a + b)
  else if op = "-" then .numlit (a - b)
  else if op = "*" then .numlit (a * b)
  else if op = "<" then .boollit (decide (a < b))
  else if op = "<=" then .boollit (decide (a ≤ b))
  else if op = ">" then .boollit (decide (b < a))
  else if op = ">=" then .boollit (decide (b ≤ a))
  else if op = "==" then .boollit (decide (a = b))
  else if op = "!=" then .boollit (decide (¬ a = b))
  else .binary op (.numlit a) (.numlit b)

/-- Modelled from the spec: constant folding of boolean `And` / `Or`
over two boolean literal operands. -/
def foldBool (op : String) (a b : Bool) : Exp :=
  if op = "And" then .boollit (a && b)
  else if op = "Or" then .boollit (a || b)
  else .binary op (.boollit a) (.boollit b)

/-- Modelled from the spec: local rewrite of a binary expression whose
operands were already optimized; folds only when both are literals. -/
def foldBinary (op : String) (l r : Exp) : Exp :=
  match l, r with
  | .numlit a, .numlit b => foldNum op a b
  | .boollit a, .boollit b => foldBool op a b
  | _, _ => .binary op l r

/-- Modelled from the spec: folding of unary minus over a numeric
literal operand. -/
def foldUnary (op : String) (e : Exp) : Exp :=
  match e with
  | .numlit n => if op = "-" then .numlit (-n) else .unary op (.numlit n)
  | _ => .unary op e

mutual
/-- Modelled from the spec: every expression node's `optimize`
recursively optimizes children first, then applies the local constant
folding rewrites. -/
def optExp : Exp → Exp
  | .boollit b => .boollit b
  | .numlit n => .numlit n
  | .varExp s => .varExp s
  | .binary op l r => foldBinary op (optExp l) (optExp r)
  | .unary op e => foldUnary op (optExp e)
  | .call f args => .call f (optArgs args)
/-- Modelled from the spec: arguments of a call are optimized
pointwise. -/
def optArgs : Args → Args
  | .nil => .nil
  | .cons i e rest => .cons i (optExp e) (optArgs rest)
end

/-- Parameter.optimize: the default expression, if any, is optimized
in place; the parameter node itself is returned (modelled from the
spec). -/
def optimizeParam : Param → Param
  | .required i => .required i
  | .optional i d => .optional i (optExp d)

def optimizeParams (ps : List Param) : List Param := ps.map optimizeParam

def isFalseLit : Exp → Bool
  | .boollit false => true
  | _ => false

def isTrueLit : Exp → Bool
  | .boollit true => true
  | _ => false

/-- Modelled from the spec: AssignmentStatement.optimize returns the
removal sentinel for an assignment of a variable to itself, otherwise
the node with its sources optimized.  The result is the list spliced
into the parent's statement list (empty list = removed). -/
def optAssign (ts : List String) (ss : List Exp) : Stmts :=
  match ts, ss with
  | [x], [.varExp y] =>
      if x = y then .nil else .cons (.assignment [x] [.varExp y]) .nil
  | ts2, ss2 => .cons (.assignment ts2 ss2) .nil

mutual
/-- The value a statement's `optimize()` hands to its parent, as a
statement list to splice in: `.nil` is the removal sentinel, a
singleton is the node itself or a replacement, and a longer list is a
statically-true if branch's body replacing the whole statement.
Modelled from the spec for every node except FunctionDeclaration,
whose case is translated from FunctionObject.optimize in the source. -/
def optStmt : Stmt → Stmts
  | .assignment ts ss => optAssign ts (ss.map optExp)
  | .breakStmt => .cons .breakStmt .nil
  | .returnStmt e => .cons (.returnStmt (e.map optExp)) .nil
  | .whileStmt t b => .cons (.whileStmt (optExp t) (optStmts b)) .nil
  | .ifStmt cs alt =>
      match optCases cs with
      | .nil => optStmts alt
      | .cons t b rest =>
          if isTrueLit t then b
          else .cons (.ifStmt (.cons t b rest) (optStmts alt)) .nil
  | .funDecl id ps body => .cons (.funDecl id (optimizeParams ps) (mutStmts body)) .nil
/-- The in-place mutation a statement's `optimize()` performs on the
node itself (children optimized, own statement lists compacted), as
distinct from its return value.  This is what survives in a list whose
owner discards the return values, as FunctionObject.optimize does with
`this.body.forEach((s) => s.optimize())`. -/
def mutStmt : Stmt → Stmt
  | .assignment ts ss => .assignment ts (ss.map optExp)
  | .breakStmt => .breakStmt
  | .returnStmt e => .returnStmt (e.map optExp)
  | .whileStmt t b => .whileStmt (optExp t) (optStmts b)
  | .ifStmt cs alt => .ifStmt (optCases cs) (optStmts alt)
  | .funDecl id ps body => .funDecl id (optimizeParams ps) (mutStmts body)
/-- Modelled from the spec: a statement list owner (Program, suite of
a while/if) replaces each child by the result of its `optimize()` and
filters out removed entries; with list-valued results this is
concatenation. -/
def optStmts : Stmts → Stmts
  | .nil => .nil
  | .cons s rest => (optStmt s).append (optStmts rest)
/-- FunctionObject.optimize's treatment of its body, translated from
the source: `this.body.forEach((s) => s.optimize())` runs each
statement's optimize for its in-place effect and discards the returned
value, and the subsequent `filter((s) => s !== null)` removes nothing
because the array still holds the original (non-null) statement
objects. -/
def mutStmts : Stmts → Stmts
  | .nil => .nil
  | .cons s rest => .cons (mutStmt s) (mutStmts rest)
/-- Modelled from the spec: the cases of an if are optimized and the
statically-false ones are dropped. -/
def optCases : Cases → Cases
  | .nil => .nil
  | .cons t b rest =>
      if isFalseLit (optExp t) then optCases rest
      else .cons (optExp t) (optStmts b) (optCases rest)
end

/-- The property that a case list is an optimizer fixpoint: every test
and body is optimized, and no test is a false literal. -/
def CasesGood : Cases → Prop
  | .nil => True
  | .cons t b rest => optExp t = t ∧ optStmts b = b ∧ isFalseLit t = false ∧ CasesGood rest

/- ------------------------------------------------------------------
Contexts and semantic analysis
------------------------------------------------------------------ -/

/-- The analysis error taxonomy of the spec (§7). -/
inductive Err where
  | parameterOrder
  | duplicateDeclaration (name : String)
  | undeclaredIdentifier (name : String)
  | arityMismatch
  | illegalBreak
  | illegalReturn
  | callBinding

/-- A Declaration: the nodes that introduce a bindable name, namely a
Parameter or a FunctionDeclaration (which carries its parameter list
for call binding checks). -/
inductive Decl where
  | param (id : String)
  | func (id : String) (params : List Param)

def Decl.name : Decl → String
  | .param i => i
  | .func i _ => i

/-- Modelled from the spec: a Context is one lexical scope — a mapping
from identifiers to declarations, a possibly-absent parent, and the
derived `inLoop` and enclosing-function flags (the enclosing function
held by its name). -/
inductive Ctx where
  | root (bindings : List (String × Decl))
  | child (bindings : List (String × Decl)) (inLoop : Bool) (func : Option String) (parent : Ctx)

def findDecl : List (String × Decl) → String → Option Decl
  | [], _ => none
  | (k, d) :: rest, n => if k = n then some d else findDecl rest n

def Ctx.ownBindings : Ctx → List (String × Decl)
  | .root b => b
  | .child b _ _ _ => b

def ownNames (c : Ctx) : List String := c.ownBindings.map (fun p => p.1)

def Ctx.inLoopOf : Ctx → Bool
  | .root _ => false
  | .child _ il _ _ => il

def Ctx.funcOf : Ctx → Option String
  | .root _ => none
  | .child _ _ f _ => f

def Ctx.parentOf : Ctx → Ctx
  | .root b => .root b
  | .child _ _ _ p => p

def Ctx.withParent : Ctx → Ctx → Ctx
  | .root b, _ => .root b
  | .child b il f _, p => .child b il f p

/-- Modelled from the spec: `lookup(name)` searches this scope, then
the parent, then the grandparent; it returns the nearest declaration
found and fails with `UndeclaredIdentifierError` when the chain is
exhausted. -/
def lookupCtx : Ctx → String → Except Err Decl
  | .root b, n =>
      match findDecl b n with
      | some d => .ok d
      | none => .error (.undeclaredIdentifier n)
  | .child b _ _ p, n =>
      match findDecl b n with
      | some d => .ok d
      | none => lookupCtx p n

def insertTop : Ctx → Decl → Ctx
  | .root b, d => .root ((d.name, d) :: b)
  | .child b il f p, d => .child ((d.name, d) :: b) il f p

/-- Modelled from the spec: `addVariable(decl)` fails with
`DuplicateDeclarationError` when the name already exists in this very
scope (ancestor scopes are not consulted); otherwise it inserts the
binding. -/
def addVariable (c : Ctx) (d : Decl) : Except Err Ctx :=
  if d.name ∈ ownNames c then .error (.duplicateDeclaration d.name)
  else .ok (insertTop c d)

/-- Whether some scope of the chain binds the name. -/
def boundInChain : Ctx → String → Bool
  | .root b, n => (findDecl b n).isSome
  | .child b _ _ p, n => (findDecl b n).isSome || boundInChain p n

/-- Modelled from the spec: a plain child scope (an if branch or the
else suite), inheriting the `inLoop` and function flags. -/
def childScope (c : Ctx) : Ctx := .child [] c.inLoopOf c.funcOf c

/-- Modelled from the spec: the child scope of a while body, with
`inLoop` set. -/
def loopScope (c : Ctx) : Ctx := .child [] true c.funcOf c

/-- createChildContextForFunctionBody: the function's own scope, with
`inLoop` reset to false and the function flag set to this function. -/
def funScope (c : Ctx) (id : String) : Ctx := .child [] false (some id) c

def Args.posCount : Args → Nat
  | .nil => 0
  | .cons none _ r => r.posCount + 1
  | .cons (some _) _ r => r.posCount

def Args.namedIds : Args → List String
  | .nil => []
  | .cons none _ r => r.namedIds
  | .cons (some i) _ r => i :: r.namedIds

def allIds (ps : List Param) : List String := ps.map Param.id

def requiredIds (ps : List Param) : List String :=
  (ps.filter Param.isReq).map Param.id

/-- Modelled from the spec: argument-to-parameter binding of a call is
validated against the callee's parameter names — an unknown argument
name, an excess of positional arguments, or a required parameter
covered neither positionally nor by name fails with
`CallBindingError`.  A callee that is a plain parameter carries no
parameter list to validate against. -/
def checkBinding (d : Decl) (args : Args) : Except Err Unit :=
  match d with
  | .param _ => .ok ()
  | .func _ ps =>
      if (args.namedIds.all (fun n => (allIds ps).contains n)
          && Nat.ble args.posCount ps.length
          && (requiredIds ps).all
              (fun r => ((allIds ps).take args.posCount).contains r
                        || args.namedIds.contains r)) then .ok ()
      else .error .callBinding

mutual
/-- Modelled from the spec: literals analyze vacuously; a variable
expression resolves via lookup; binary/unary expressions recurse into
operands; a call resolves the callee, analyzes each argument, then
validates the binding. -/
def analyzeExp : Ctx → Exp → Except Err Unit
  | _, .boollit _ => .ok ()
  | _, .numlit _ => .ok ()
  | c, .varExp n =>
      match lookupCtx c n with
      | .ok _ => .ok ()
      | .error e => .error e
  | c, .binary _ l r =>
      match analyzeExp c l with
      | .ok _ => analyzeExp c r
      | .error e => .error e
  | c, .unary _ e => analyzeExp c e
  | c, .call f args =>
      match lookupCtx c f with
      | .error e => .error e
      | .ok d =>
          match analyzeArgs c args with
          | .error e => .error e
          | .ok _ => checkBinding d args
termination_by structural c e => e
/-- Modelled from the spec: each argument expression is analyzed in
order. -/
def analyzeArgs : Ctx → Args → Except Err Unit
  | _, .nil => .ok ()
  | c, .cons _ e rest =>
      match analyzeExp c e with
      | .ok _ => analyzeArgs c rest
      | .error e2 => .error e2
termination_by structural c a => a
end

def analyzeExpList : Ctx → List Exp → Except Err Unit
  | _, [] => .ok ()
  | c, e :: rest =>
      match analyzeExp c e with
      | .ok _ => analyzeExpList c rest
      | .error er => .error er

/-- Analysis of the assignment targets (variable expressions): each
resolves via lookup. -/
def analyzeNames : Ctx → List String → Except Err Unit
  | _, [] => .ok ()
  | c, n :: rest =>
      match lookupCtx c n with
      | .ok _ => analyzeNames c rest
      | .error er => .error er

def analyzeOptExp : Ctx → Option Exp → Except Err Unit
  | _, none => .ok ()
  | c, some e => analyzeExp c e

/-- Modelled from the spec: Parameter.analyze declares the parameter
in the function's scope via addVariable, after analyzing its default
expression (if any) there. -/
def analyzeParam (c : Ctx) (p : Param) : Except Err Ctx :=
  match p with
  | .required i => addVariable c (.param i)
  | .optional i d =>
      match analyzeExp c d with
      | .error e => .error e
      | .ok _ => addVariable c (.param i)

def analyzeParams : Ctx → List Param → Except Err Ctx
  | c, [] => .ok c
  | c, p :: rest =>
      match analyzeParam c p with
      | .error e => .error e
      | .ok c2 => analyzeParams c2 rest

def insertSet (s : List String) (x : String) : List String :=
  if x ∈ s then s else s ++ [x]

/-- The required-before-optional scan of FunctionObject.analyze,
translated from the source: walking the parameters in order, each id
is added to the all-names set; a required id is also added to the
required-names set and then `requiredParameterNames.size <
allParameterNames.size` raises the error. -/
def checkOrderAux : List Param → List String → List String → Except Err Unit
  | [], _, _ => .ok ()
  | .required i :: rest, alls, reqs =>
      if (insertSet reqs i).length < (insertSet alls i).length then .error .parameterOrder
      else checkOrderAux rest (insertSet alls i) (insertSet reqs i)
  | .optional i _ :: rest, alls, reqs => checkOrderAux rest (insertSet alls i) reqs

def checkOrder (ps : List Param) : Except Err Unit := checkOrderAux ps [] []

/-- The size of `allParameterNames` after scanning the given parameter
prefix (the set is insertion-deduplicated, as a JS Set is). -/
def foldAllNames : List String → List Param → List String
  | acc, [] => acc
  | acc, p :: rest => foldAllNames (insertSet acc p.id) rest

def foldReqNames : List String → List Param → List String
  | acc, [] => acc
  | acc, .required i :: rest => foldReqNames (insertSet acc i) rest
  | acc, .optional _ _ :: rest => foldReqNames acc rest

def scanAllSize (ps : List Param) : Nat := (foldAllNames [] ps).length

def scanReqSize (ps : List Param) : Nat := (foldReqNames [] ps).length

/-- Whether, in declaration order, some required parameter appears
strictly after some optional one. -/
def anyRequired : List Param → Bool
  | [] => false
  | .required _ :: _ => true
  | .optional _ _ :: rest => anyRequired rest

def hasReqAfterOpt : List Param → Bool
  | [] => false
  | .required _ :: rest => hasReqAfterOpt rest
  | .optional _ _ :: rest => anyRequired rest

mutual
/-- Per-statement analysis.  AssignmentStatement and
FunctionDeclaration are translated from the source
(function-object.ts and the FunctionDeclaration class of parser.js);
the remaining statement kinds are modelled from the spec.  The
FunctionDeclaration case mirrors the source order exactly: the child
context is created, the parameters are analyzed in it, the
required-before-optional scan runs, only then is the function itself
added to the outer context, and finally the body is analyzed in the
child context (which now sees the function through its parent). -/
def analyzeStmt : Ctx → Stmt → Except Err Ctx
  | c, .assignment ts ss =>
      if ts.length = ss.length then
        match analyzeExpList c ss with
        | .error e => .error e
        | .ok _ =>
            match analyzeNames c ts with
            | .error e => .error e
            | .ok _ => .ok c
      else .error .arityMismatch
  | c, .breakStmt => if c.inLoopOf then .ok c else .error .illegalBreak
  | c, .returnStmt e =>
      match c.funcOf with
      | none => .error .illegalReturn
      | some _ =>
          match analyzeOptExp c e with
          | .error er => .error er
          | .ok _ => .ok c
  | c, .whileStmt t b =>
      match analyzeExp c t with
      | .error e => .error e
      | .ok _ =>
          match analyzeStmts (loopScope c) b with
          | .error e => .error e
          | .ok c2 => .ok c2.parentOf
  | c, .ifStmt cs alt =>
      match analyzeCases c cs with
      | .error e => .error e
      | .ok c2 =>
          match analyzeStmts (childScope c2) alt with
          | .error e => .error e
          | .ok c3 => .ok c3.parentOf
  | c, .funDecl id ps body =>
      match analyzeParams (funScope c id) ps with
      | .error e => .error e
      | .ok l1 =>
          match checkOrder ps with
          | .error e => .error e
          | .ok _ =>
              match addVariable l1.parentOf (.func id ps) with
              | .error e => .error e
              | .ok p2 =>
                  match analyzeStmts (l1.withParent p2) body with
                  | .error e => .error e
                  | .ok l3 => .ok l3.parentOf
termination_by structural c s => s
/-- A statement list is analyzed in order, threading the context. -/
def analyzeStmts : Ctx → Stmts → Except Err Ctx
  | c, .nil => .ok c
  | c, .cons s rest =>
      match analyzeStmt c s with
      | .error e => .error e
      | .ok c2 => analyzeStmts c2 rest
termination_by structural c l => l
/-- Modelled from the spec: each case's test is analyzed in the
enclosing context and its body in a fresh child scope. -/
def analyzeCases : Ctx → Cases → Except Err Ctx
  | c, .nil => .ok c
  | c, .cons t b rest =>
      match analyzeExp c t with
      | .error e => .error e
      | .ok _ =>
          match analyzeStmts (childScope c) b with
          | .error e => .error e
          | .ok c2 => analyzeCases c2.parentOf rest
termination_by structural c l => l
end

def rootCtx : Ctx := .root []

def analyzeProgram (p : Stmts) : Except Err Ctx := analyzeStmts rootCtx p

/- ------------------------------------------------------------------
The compile driver (plainscript.ts)
------------------------------------------------------------------ -/

structure CompileOptions where
  astOnly : Bool
  frontEndOnly : Bool
  shouldOptimize : Bool

/-- What compile returns in each mode: the inspected raw AST, the
inspected decorated AST, or generated code (generation itself is out
of scope; the tree handed to `gen`, and whether it was optimized, is
recorded). -/
inductive CompileResult where
  | ast (p : Stmts)
  | decorated (p : Stmts)
  | code (optimized : Bool) (p : Stmts)

/-- The compile function of plainscript.ts, over an already-parsed
program: in astOnly mode the raw AST is returned at once; otherwise
analysis runs (and its failure aborts compilation), then frontEndOnly
returns the decorated tree, and otherwise code is generated from the
optimized or unoptimized tree. -/
def compile (p : Stmts) (opts : CompileOptions) : Except Err CompileResult :=
  if opts.astOnly then .ok (.ast p)
  else
    match analyzeProgram p with
    | .error e => .error e
    | .ok _ =>
        if opts.frontEndOnly then .ok (.decorated p)
        else if opts.shouldOptimize then .ok (.code true (optStmts p))
        else .ok (.code false p)

/- ------------------------------------------------------------------
Optimizer idempotence
------------------------------------------------------------------ -/

theorem Stmts.append_nil : (l : Stmts) → l.append .nil = l
  | .nil => rfl
  | .cons s r => by simp [Stmts.append, Stmts.append_nil r]

theorem Stmts.append_assoc : (a b c : Stmts) → (a.append b).append c = a.append (b.append c)
  | .nil, _, _ => rfl
  | .cons s r, b, c => by simp [Stmts.append, Stmts.append_assoc r b c]

theorem optStmts_append : (a b : Stmts) → optStmts (a.append b) = (optStmts a).append (optStmts b)
  | .nil, b => rfl
  | .cons s r, b => by
      simp [Stmts.append, optStmts, optStmts_append r b, Stmts.append_assoc]

theorem optExp_foldNum (op : String) (a b : Int) : optExp (foldNum op a b) = foldNum op a b := by
  unfold foldNum
  split_ifs <;> simp_all [optExp, foldBinary, foldNum]

theorem optExp_foldBool (op : String) (a b : Bool) : optExp (foldBool op a b) = foldBool op a b := by
  unfold foldBool
  split_ifs <;> simp_all [optExp, foldBinary, foldBool]

set_option maxHeartbeats 1000000 in
theorem foldBinary_shape (op : String) (l r : Exp) :
    (∃ v, foldBinary op l r = .boollit v) ∨ (∃ n, foldBinary op l r = .numlit n)
    ∨ foldBinary op l r = .binary op l r := by
  cases l <;> cases r <;> try (exact Or.inr (Or.inr rfl))
  · unfold foldBinary foldBool
    split_ifs <;>
      first
        | exact Or.inl ⟨_, rfl⟩
        | exact Or.inr (Or.inr rfl)
  · unfold foldBinary foldNum
    split_ifs <;>
      first
        | exact Or.inl ⟨_, rfl⟩
        | exact Or.inr (Or.inl ⟨_, rfl⟩)
        | exact Or.inr (Or.inr rfl)

theorem optExp_foldBinary (op : String) (l r : Exp) (hl : optExp l = l) (hr : optExp r = r) :
    optExp (foldBinary op l r) = foldBinary op l r := by
  rcases foldBinary_shape op l r with ⟨v, h⟩ | ⟨n, h⟩ | h <;> rw [h]
  · rfl
  · rfl
  · simp only [optExp]
    rw [hl, hr, h]

theorem foldUnary_shape (op : String) (e : Exp) :
    (∃ n, foldUnary op e = .numlit n) ∨ foldUnary op e = .unary op e := by
  cases e <;> try (exact Or.inr rfl)
  case numlit n =>
    unfold foldUnary
    split_ifs
    · exact Or.inl ⟨_, rfl⟩
    · exact Or.inr rfl

theorem optExp_foldUnary (op : String) (e : Exp) (he : optExp e = e) :
    optExp (foldUnary op e) = foldUnary op e := by
  rcases foldUnary_shape op e with ⟨n, h⟩ | h <;> rw [h]
  · rfl
  · simp only [optExp]
    rw [he, h]

mutual
theorem optExp_idem : (e : Exp) → optExp (optExp e) = optExp e
  | .boollit _ => rfl
  | .numlit _ => rfl
  | .varExp _ => rfl
  | .binary op l r => by
      simp only [optExp]
      exact optExp_foldBinary op _ _ (optExp_idem l) (optExp_idem r)
  | .unary op e => by
      simp only [optExp]
      exact optExp_foldUnary op _ (optExp_idem e)
  | .call f args => by simp [optExp, optArgs_idem args]
theorem optArgs_idem : (a : Args) → optArgs (optArgs a) = optArgs a
  | .nil => rfl
  | .cons i e rest => by simp [optArgs, optExp_idem e, optArgs_idem rest]
end

theorem optExp_comp : optExp ∘ optExp = optExp := funext optExp_idem

theorem optimizeParam_idem (p : Param) : optimizeParam (optimizeParam p) = optimizeParam p := by
  cases p <;> simp [optimizeParam, optExp_idem]

theorem optimizeParam_comp : optimizeParam ∘ optimizeParam = optimizeParam :=
  funext optimizeParam_idem

theorem optimizeParams_idem (ps : List Param) :
    optimizeParams (optimizeParams ps) = optimizeParams ps := by
  simp [optimizeParams, optimizeParam_comp]

theorem optAssign_shape (ts : List String) (ss : List Exp) :
    optAssign ts ss = .nil ∨ optAssign ts ss = .cons (.assignment ts ss) .nil := by
  unfold optAssign
  split
  · split_ifs
    · exact Or.inl rfl
    · exact Or.inr rfl
  · exact Or.inr rfl

theorem casesGood_fix : (c : Cases) → CasesGood c → optCases c = c
  | .nil, _ => rfl
  | .cons t b rest, h => by
      obtain ⟨ht, hb, hf, hrest⟩ := h
      simp [optCases, ht, hf, hb, casesGood_fix rest hrest]

mutual
theorem mutStmt_idem : (s : Stmt) → mutStmt (mutStmt s) = mutStmt s
  | .assignment ts ss => by simp [mutStmt, optExp_comp]
  | .breakStmt => rfl
  | .returnStmt e => by simp [mutStmt, optExp_comp]
  | .whileStmt t b => by simp [mutStmt, optExp_idem t, optStmts_idem b]
  | .ifStmt cs alt => by
      simp [mutStmt, optStmts_idem alt, casesGood_fix _ (optCases_good cs)]
  | .funDecl id ps body => by simp [mutStmt, optimizeParams_idem ps, mutStmts_idem body]
theorem optStmt_stable : (s : Stmt) → optStmts (optStmt s) = optStmt s
  | .assignment ts ss => by
      rcases optAssign_shape ts (ss.map optExp) with h | h <;>
        simp only [optStmt, h]
      · rfl
      · simp [optStmts, optStmt, Stmts.append_nil, optExp_comp]
        exact h
  | .breakStmt => rfl
  | .returnStmt e => by
      simp [optStmt, optStmts, Stmts.append, optExp_comp]
  | .whileStmt t b => by
      simp [optStmt, optStmts, Stmts.append, optExp_idem t, optStmts_idem b]
  | .ifStmt cs alt => by
      rcases hK : optCases cs with _ | ⟨t, b, rest⟩
      · simp only [optStmt, hK]
        exact optStmts_idem alt
      · have hG := optCases_good cs
        rw [hK] at hG
        obtain ⟨ht, hb, hf, hrest⟩ := hG
        by_cases htrue : isTrueLit t = true
        · simp only [optStmt, hK, htrue, if_pos]
          exact hb
        · simp only [optStmt, hK, htrue, if_neg, Bool.not_eq_true]
          have hfix : optCases (Cases.cons t b rest) = Cases.cons t b rest :=
            casesGood_fix _ ⟨ht, hb, hf, hrest⟩
          simp [optStmts, optStmt, Stmts.append_nil, hfix, htrue, optStmts_idem alt]
  | .funDecl id ps body => by
      simp [optStmt, optStmts, Stmts.append, optimizeParams_idem ps, mutStmts_idem body]
theorem optStmts_idem : (l : Stmts) → optStmts (optStmts l) = optStmts l
  | .nil => rfl
  | .cons s rest => by
      simp [optStmts, optStmts_append, optStmt_stable s, optStmts_idem rest]
theorem mutStmts_idem : (l : Stmts) → mutStmts (mutStmts l) = mutStmts l
  | .nil => rfl
  | .cons s rest => by simp [mutStmts, mutStmt_idem s, mutStmts_idem rest]
theorem optCases_good : (c : Cases) → CasesGood (optCases c)
  | .nil => trivial
  | .cons t b rest => by
      by_cases h : isFalseLit (optExp t) = true
      · simp only [optCases, h, if_pos]
        exact optCases_good rest
      · rw [Bool.not_eq_true] at h
        simp only [optCases, h, Bool.false_eq_true, if_neg, not_false_iff]
        exact ⟨optExp_idem t, optStmts_idem b, by simp [optExp_idem t, h], optCases_good rest⟩
end

theorem optCases_idem (c : Cases) : optCases (optCases c) = optCases c :=
  casesGood_fix _ (optCases_good c)

/-- C4.  For every tree on which analysis has succeeded, running the
optimizer twice yields a tree structurally equal to running it once. -/
theorem optimize_idempotent (p : Stmts) (c : Ctx) (_h : analyzeProgram p = Except.ok c) :
    optStmts (optStmts p) = optStmts p :=
  optStmts_idem p

theorem optimize_idempotent_witness :
    optStmts (optStmts (Stmts.cons (Stmt.funDecl "f" [] Stmts.nil) Stmts.nil))
      = optStmts (Stmts.cons (Stmt.funDecl "f" [] Stmts.nil) Stmts.nil) :=
  optimize_idempotent (Stmts.cons (Stmt.funDecl "f" [] Stmts.nil) Stmts.nil)
    (Ctx.root [("f", Decl.func "f" [])]) rfl

/-- C9.  FunctionObject.optimize returns the very node it was invoked
on (with its fields optimized in place), never a replacement node and
never the removal sentinel, so in any parent statement list the
function declaration survives optimization in place, with its
siblings spliced independently. -/
theorem funDecl_optimize_returns_self (id : String) (ps : List Param) (body rest : Stmts) :
    ∃ ps2 body2,
      optStmts (Stmts.cons (Stmt.funDecl id ps body) rest)
        = Stmts.cons (Stmt.funDecl id ps2 body2) (optStmts rest) :=
  ⟨optimizeParams ps, mutStmts body, by simp [optStmts, optStmt, Stmts.append]⟩

/-- C5, code evaluated at the failing input.  A function whose body is
the self-assignment `x = x`: the body statement's own optimize()
returns the removal sentinel, yet FunctionObject.optimize (which runs
the body's optimizers with forEach, discarding their results, and
filters the original array for nulls) leaves the statement in the
body.  The tree analyzes successfully, so this is a tree the optimizer
contract is supposed to cover. -/
theorem function_body_retains_removed :
    optStmt (Stmt.funDecl "f" [Param.required "x"]
        (Stmts.cons (Stmt.assignment ["x"] [Exp.varExp "x"]) Stmts.nil))
      = Stmts.cons (Stmt.funDecl "f" [Param.required "x"]
          (Stmts.cons (Stmt.assignment ["x"] [Exp.varExp "x"]) Stmts.nil)) Stmts.nil
    ∧ optStmt (Stmt.assignment ["x"] [Exp.varExp "x"]) = Stmts.nil
    ∧ analyzeStmt rootCtx (Stmt.funDecl "f" [Param.required "x"]
        (Stmts.cons (Stmt.assignment ["x"] [Exp.varExp "x"]) Stmts.nil))
      = Except.ok (insertTop rootCtx (Decl.func "f" [Param.required "x"])) :=
  ⟨rfl, rfl, rfl⟩

/- ------------------------------------------------------------------
Context: lookup and addVariable
------------------------------------------------------------------ -/

theorem lookupCtx_error_shape : (c : Ctx) → (n : String) → ∀ e,
    lookupCtx c n = .error e → e = .undeclaredIdentifier n := by
  intro c
  induction c with
  | root b =>
      intro n e h
      simp only [lookupCtx] at h
      rcases hf : findDecl b n with _ | d <;> rw [hf] at h <;> simp_all
  | child b il f p ih =>
      intro n e h
      simp only [lookupCtx] at h
      rcases hf : findDecl b n with _ | d <;> rw [hf] at h
      · exact ih n e h
      · simp_all

/-- C7.  `lookup` searches strictly innermost-to-outermost: a hit in
the own scope is returned no matter what ancestors bind (shadowing,
without error); a miss in the own scope delegates to the parent; a
name bound nowhere in the chain fails with
`UndeclaredIdentifierError`, and conversely a successful lookup means
some scope of the chain binds the name. -/
theorem lookup_scope_spec (name : String) :
    (∀ b il f p d, findDecl b name = some d →
        lookupCtx (Ctx.child b il f p) name = .ok d)
    ∧ (∀ b il f p, findDecl b name = none →
        lookupCtx (Ctx.child b il f p) name = lookupCtx p name)
    ∧ (∀ c, boundInChain c name = false →
        lookupCtx c name = .error (.undeclaredIdentifier name))
    ∧ (∀ c d, lookupCtx c name = .ok d → boundInChain c name = true) := by
  refine ⟨?_, ?_, ?_, ?_⟩
  · intro b il f p d h
    simp [lookupCtx, h]
  · intro b il f p h
    simp [lookupCtx, h]
  · intro c
    induction c with
    | root b =>
        intro h
        rcases hf : findDecl b name with _ | d
        · simp [lookupCtx, hf]
        · rw [boundInChain, hf] at h
          simp at h
    | child b il f p ih =>
        intro h
        rcases hf : findDecl b name with _ | d
        · rw [boundInChain, hf] at h
          simp at h
          simp only [lookupCtx, hf]
          exact ih h
        · rw [boundInChain, hf] at h
          simp at h
  · intro c
    induction c with
    | root b =>
        intro d h
        rcases hf : findDecl b name with _ | d2
        · simp [lookupCtx, hf] at h
        · simp [boundInChain, hf]
    | child b il f p ih =>
        intro d h
        rcases hf : findDecl b name with _ | d2
        · simp only [lookupCtx, hf] at h
          simp only [boundInChain, hf]
          simp [ih d h]
        · simp [boundInChain, hf]

theorem lookup_scope_spec_witness :
    lookupCtx (Ctx.child [("x", Decl.param "x")] false none
        (Ctx.root [("x", Decl.func "x" []), ("y", Decl.param "y")])) "x"
      = .ok (Decl.param "x")
    ∧ lookupCtx (Ctx.child [("x", Decl.param "x")] false none
        (Ctx.root [("x", Decl.func "x" []), ("y", Decl.param "y")])) "y"
      = lookupCtx (Ctx.root [("x", Decl.func "x" []), ("y", Decl.param "y")]) "y"
    ∧ lookupCtx (Ctx.child [("x", Decl.param "x")] false none
        (Ctx.root [("x", Decl.func "x" []), ("y", Decl.param "y")])) "z"
      = .error (.undeclaredIdentifier "z") :=
  ⟨(lookup_scope_spec "x").1 _ _ _ _ _ rfl,
   (lookup_scope_spec "y").2.1 _ _ _ _ rfl,
   (lookup_scope_spec "z").2.2.1 _ rfl⟩

/-- C8.  `addVariable(decl)` fails with `DuplicateDeclarationError`
exactly when the name is already bound in this scope's own mapping
(ancestor bindings are irrelevant, since only the own names are
consulted); otherwise it inserts the binding, which lookup then
finds. -/
theorem addVariable_spec (c : Ctx) (d : Decl) :
    (addVariable c d = .error (.duplicateDeclaration d.name) ↔ d.name ∈ ownNames c)
    ∧ (d.name ∉ ownNames c →
        addVariable c d = .ok (insertTop c d)
        ∧ lookupCtx (insertTop c d) d.name = .ok d) := by
  constructor
  · unfold addVariable
    split_ifs with h <;> simp [h]
  · intro h
    refine ⟨by simp [addVariable, h], ?_⟩
    cases c <;> simp [insertTop, lookupCtx, findDecl]

theorem addVariable_spec_witness :
    addVariable (Ctx.root [("x", Decl.param "x")]) (Decl.func "x" [])
      = .error (.duplicateDeclaration "x")
    ∧ addVariable (Ctx.child [] false none (Ctx.root [("x", Decl.param "x")])) (Decl.func "x" [])
      = .ok (insertTop (Ctx.child [] false none (Ctx.root [("x", Decl.param "x")])) (Decl.func "x" [])) :=
  ⟨(addVariable_spec (Ctx.root [("x", Decl.param "x")]) (Decl.func "x" [])).1.mpr (by decide),
   ((addVariable_spec (Ctx.child [] false none (Ctx.root [("x", Decl.param "x")]))
      (Decl.func "x" [])).2 (by decide)).1⟩

/-- C10.  In astOnly mode, compile returns the inspected raw AST
without ever invoking analyze, so no semantic error can surface even
for a semantically invalid program; in every non-astOnly mode, an
analysis failure is compile's result (so generation is unreachable),
and a successful compile implies analysis succeeded first. -/
theorem compile_mode_spec (p : Stmts) (opts : CompileOptions) :
    (opts.astOnly = true → compile p opts = .ok (.ast p))
    ∧ (opts.astOnly = false → ∀ e, analyzeProgram p = .error e → compile p opts = .error e)
    ∧ (opts.astOnly = false → ∀ r, compile p opts = .ok r → ∃ c, analyzeProgram p = .ok c) := by
  refine ⟨fun h => by simp [compile, h], fun h e he => by simp [compile, h, he], fun h r hr => ?_⟩
  rw [compile] at hr
  simp only [h, Bool.false_eq_true, if_false] at hr
  rcases ha : analyzeProgram p with e | c
  · rw [ha] at hr
    simp at hr
  · exact ⟨c, rfl⟩

theorem compile_mode_spec_witness :
    compile (Stmts.cons (Stmt.returnStmt none) Stmts.nil) ⟨true, false, false⟩
      = .ok (.ast (Stmts.cons (Stmt.returnStmt none) Stmts.nil))
    ∧ compile (Stmts.cons (Stmt.returnStmt none) Stmts.nil) ⟨false, false, false⟩
      = .error .illegalReturn :=
  ⟨(compile_mode_spec (Stmts.cons (Stmt.returnStmt none) Stmts.nil) ⟨true, false, false⟩).1 rfl,
   (compile_mode_spec (Stmts.cons (Stmt.returnStmt none) Stmts.nil) ⟨false, false, false⟩).2.1
     rfl Err.illegalReturn rfl⟩

/- ------------------------------------------------------------------
AssignmentStatement.analyze
------------------------------------------------------------------ -/

theorem checkBinding_shape (d : Decl) (a : Args) :
    checkBinding d a = .ok () ∨ checkBinding d a = .error .callBinding := by
  cases d with
  | param i => exact Or.inl rfl
  | func i ps =>
      simp only [checkBinding]
      split_ifs <;> simp

mutual
theorem analyzeExp_no_arity : (c : Ctx) → (e : Exp) →
    analyzeExp c e ≠ Except.error Err.arityMismatch
  | c, .boollit b => by simp [analyzeExp]
  | c, .numlit n => by simp [analyzeExp]
  | c, .varExp n => by
      simp only [analyzeExp]
      rcases h : lookupCtx c n with e | d
      · have := lookupCtx_error_shape c n e h
        simp [this]
      · simp
  | c, .binary op l r => by
      simp only [analyzeExp]
      rcases h : analyzeExp c l with e | u
      · intro hc
        injection hc with hc2
        exact analyzeExp_no_arity c l (hc2 ▸ h)
      · exact analyzeExp_no_arity c r
  | c, .unary op e => analyzeExp_no_arity c e
  | c, .call f args => by
      simp only [analyzeExp]
      rcases h : lookupCtx c f with e | d
      · have := lookupCtx_error_shape c f e h
        simp [this]
      · rcases h2 : analyzeArgs c args with e2 | u
        · intro hc
          injection hc with hc2
          exact analyzeArgs_no_arity c args (hc2 ▸ h2)
        · rcases checkBinding_shape d args with h3 | h3 <;> simp [h3]
termination_by structural c e => e
theorem analyzeArgs_no_arity : (c : Ctx) → (a : Args) →
    analyzeArgs c a ≠ Except.error Err.arityMismatch
  | c, .nil => by simp [analyzeArgs]
  | c, .cons i e rest => by
      simp only [analyzeArgs]
      rcases h : analyzeExp c e with e2 | u
      · intro hc
        injection hc with hc2
        exact analyzeExp_no_arity c e (hc2 ▸ h)
      · exact analyzeArgs_no_arity c rest
termination_by structural c a => a
end

theorem analyzeExpList_no_arity (c : Ctx) (l : List Exp) :
    analyzeExpList c l ≠ Except.error Err.arityMismatch := by
  induction l with
  | nil => simp [analyzeExpList]
  | cons e rest ih =>
      simp only [analyzeExpList]
      rcases h : analyzeExp c e with e2 | u
      · intro hc
        injection hc with hc2
        exact analyzeExp_no_arity c e (hc2 ▸ h)
      · exact ih

theorem analyzeNames_no_arity (c : Ctx) (l : List String) :
    analyzeNames c l ≠ Except.error Err.arityMismatch := by
  induction l with
  | nil => simp [analyzeNames]
  | cons n rest ih =>
      simp only [analyzeNames]
      rcases h : lookupCtx c n with e | d
      · have := lookupCtx_error_shape c n e h
        simp [this]
      · exact ih

/-- C6.  AssignmentStatement.analyze fails with `ArityMismatchError`
exactly when the target and source counts differ; when they agree, the
source expressions are all analyzed first (a failing source is the
overall result, before any target is consulted), then the target
variable expressions, and success leaves the context unchanged. -/
theorem assignment_analyze_spec (c : Ctx) (ts : List String) (ss : List Exp) :
    (analyzeStmt c (.assignment ts ss) = .error .arityMismatch ↔ ts.length ≠ ss.length)
    ∧ (ts.length = ss.length → ∀ e, analyzeExpList c ss = .error e →
        analyzeStmt c (.assignment ts ss) = .error e)
    ∧ (ts.length = ss.length → analyzeExpList c ss = .ok () →
        ∀ e, analyzeNames c ts = .error e → analyzeStmt c (.assignment ts ss) = .error e)
    ∧ (ts.length = ss.length → analyzeExpList c ss = .ok () → analyzeNames c ts = .ok () →
        analyzeStmt c (.assignment ts ss) = .ok c) := by
  refine ⟨?_, ?_, ?_, ?_⟩
  · constructor
    · intro h hlen
      rw [analyzeStmt, if_pos hlen] at h
      rcases h1 : analyzeExpList c ss with e1 | u1
      · rw [h1] at h
        injection h with h2
        exact analyzeExpList_no_arity c ss (h2 ▸ h1)
      · rw [h1] at h
        rcases h2 : analyzeNames c ts with e2 | u2
        · rw [h2] at h
          injection h with h3
          exact analyzeNames_no_arity c ts (h3 ▸ h2)
        · rw [h2] at h
          exact Except.noConfusion h
    · intro hlen
      rw [analyzeStmt, if_neg hlen]
  · intro hlen e he
    rw [analyzeStmt, if_pos hlen, he]
  · intro hlen hs e he
    rw [analyzeStmt, if_pos hlen, hs, he]
  · intro hlen hs ht
    rw [analyzeStmt, if_pos hlen, hs, ht]

theorem assignment_analyze_spec_witness :
    analyzeStmt (Ctx.root [("y", Decl.param "y")])
        (.assignment ["x"] [Exp.varExp "z", Exp.varExp "y"]) = .error .arityMismatch
    ∧ analyzeStmt (Ctx.root [("y", Decl.param "y")])
        (.assignment ["x"] [Exp.varExp "z"]) = .error (.undeclaredIdentifier "z") :=
  ⟨(assignment_analyze_spec (Ctx.root [("y", Decl.param "y")]) ["x"]
      [Exp.varExp "z", Exp.varExp "y"]).1.mpr (by decide),
   (assignment_analyze_spec (Ctx.root [("y", Decl.param "y")]) ["x"]
      [Exp.varExp "z"]).2.1 rfl (Err.undeclaredIdentifier "z") rfl⟩

/- ------------------------------------------------------------------
FunctionDeclaration.analyze: self-reference timing
------------------------------------------------------------------ -/

/-- C1.  FunctionDeclaration.analyze registers the function in the
outer context only after the parameters have been analyzed in the
function-body child context.  Consequently (first conjunct) a
parameter default expression that references the function being
declared fails with `UndeclaredIdentifierError` whenever no enclosing
scope binds that name, while (second conjunct) a body that calls the
function by name analyzes successfully, leaving the function bound in
the outer context. -/
theorem funDecl_self_reference (ctx : Ctx) (id : String) :
    (∀ pid ps body, lookupCtx ctx id = .error (.undeclaredIdentifier id) →
        analyzeStmt ctx (.funDecl id (Param.optional pid (Exp.varExp id) :: ps) body)
          = .error (.undeclaredIdentifier id))
    ∧ (∀ x, x ≠ id → id ∉ ownNames ctx →
        analyzeStmt ctx (.funDecl id [Param.required x]
            (Stmts.cons (Stmt.returnStmt (some (Exp.call id
              (Args.cons none (Exp.varExp x) Args.nil)))) Stmts.nil))
          = .ok (insertTop ctx (Decl.func id [Param.required x]))) := by
  constructor
  · intro pid ps body h
    have hl : lookupCtx (funScope ctx id) id = .error (.undeclaredIdentifier id) := by
      simp [funScope, lookupCtx, findDecl, h]
    simp [analyzeStmt, analyzeParams, analyzeParam, analyzeExp, hl]
  · intro x hx hid
    have h1 : analyzeParams (funScope ctx id) [Param.required x]
        = .ok (Ctx.child [(x, Decl.param x)] false (some id) ctx) := by
      simp [analyzeParams, analyzeParam, addVariable, ownNames, Ctx.ownBindings,
        funScope, insertTop, Decl.name]
    have hord : checkOrder [Param.required x] = .ok () := by
      simp [checkOrder, checkOrderAux, insertSet]
    have h3 : addVariable ctx (Decl.func id [Param.required x])
        = .ok (insertTop ctx (Decl.func id [Param.required x])) := by
      simp [addVariable, Decl.name, hid]
    have hlook : lookupCtx (insertTop ctx (Decl.func id [Param.required x])) id
        = .ok (Decl.func id [Param.required x]) := by
      cases ctx <;> simp [insertTop, lookupCtx, findDecl, Decl.name]
    simp [analyzeStmt, h1, hord, Ctx.parentOf, h3, Ctx.withParent, analyzeStmts,
      analyzeOptExp, analyzeExp, analyzeArgs, lookupCtx, findDecl, Ctx.funcOf, hx,
      hlook, checkBinding, allIds, requiredIds, Args.namedIds, Args.posCount,
      Param.id, Param.isReq, List.contains]

theorem funDecl_self_reference_witness :
    analyzeStmt rootCtx (.funDecl "f" [Param.optional "a" (Exp.varExp "f")] Stmts.nil)
      = .error (.undeclaredIdentifier "f")
    ∧ analyzeStmt rootCtx (.funDecl "f" [Param.required "x"]
        (Stmts.cons (Stmt.returnStmt (some (Exp.call "f"
          (Args.cons none (Exp.varExp "x") Args.nil)))) Stmts.nil))
      = .ok (insertTop rootCtx (Decl.func "f" [Param.required "x"])) :=
  ⟨(funDecl_self_reference rootCtx "f").1 "a" [] Stmts.nil rfl,
   (funDecl_self_reference rootCtx "f").2 "x" (by decide) (by decide)⟩

/- ------------------------------------------------------------------
The required-before-optional scan
------------------------------------------------------------------ -/

theorem insertSet_not_mem (s : List String) (x : String) (h : x ∉ s) :
    insertSet s x = s ++ [x] := by
  simp [insertSet, h]

theorem mem_insertSet_iff (s : List String) (x a : String) :
    a ∈ insertSet s x ↔ a ∈ s ∨ a = x := by
  by_cases h : x ∈ s
  · simp only [insertSet, if_pos h]
    constructor
    · exact Or.inl
    · rintro (ha | rfl)
      · exact ha
      · exact h
  · simp [insertSet, if_neg h]

theorem insertSet_nodup (s : List String) (x : String) (h : s.Nodup) :
    (insertSet s x).Nodup := by
  by_cases hm : x ∈ s
  · simpa [insertSet, hm] using h
  · simp [insertSet, hm, List.nodup_append, h]

theorem insertSet_length_le (s : List String) (x : String) :
    (insertSet s x).length ≤ s.length + 1 := by
  by_cases hm : x ∈ s <;> simp [insertSet, hm]

theorem checkOrderAux_shape (ps : List Param) : ∀ alls reqs,
    checkOrderAux ps alls reqs = .ok () ∨ checkOrderAux ps alls reqs = .error .parameterOrder := by
  induction ps with
  | nil => intro alls reqs; exact Or.inl rfl
  | cons p rest ih =>
      intro alls reqs
      cases p with
      | required i =>
          rw [checkOrderAux]
          split_ifs
          · exact Or.inr rfl
          · exact ih _ _
      | optional i d =>
          rw [checkOrderAux]
          exact ih _ _

theorem checkOrderAux_all_optional (ps : List Param) : ∀ alls reqs,
    anyRequired ps = false → checkOrderAux ps alls reqs = .ok () := by
  induction ps with
  | nil => intro alls reqs _; rfl
  | cons p rest ih =>
      intro alls reqs h
      cases p with
      | required i => simp [anyRequired] at h
      | optional i d =>
          rw [checkOrderAux]
          exact ih _ _ (by simpa [anyRequired] using h)

theorem checkOrderAux_no_reqAfterOpt (ps : List Param) : ∀ acc,
    hasReqAfterOpt ps = false → checkOrderAux ps acc acc = .ok () := by
  induction ps with
  | nil => intro acc _; rfl
  | cons p rest ih =>
      intro acc h
      cases p with
      | required i =>
          rw [checkOrderAux, if_neg (lt_irrefl _)]
          exact ih _ (by simpa [hasReqAfterOpt] using h)
      | optional i d =>
          rw [checkOrderAux]
          exact checkOrderAux_all_optional rest _ _ (by simpa [hasReqAfterOpt] using h)

theorem checkOrderAux_deficit (ps : List Param) : ∀ alls reqs,
    (alls ++ ps.map Param.id).Nodup → reqs.length < alls.length →
    (checkOrderAux ps alls reqs = .ok () ↔ anyRequired ps = false) := by
  induction ps with
  | nil => intro alls reqs _ _; simp [checkOrderAux, anyRequired]
  | cons p rest ih =>
      intro alls reqs hnd hlen
      have hdisj : alls.Disjoint (Param.id p :: rest.map Param.id) := by
        simpa using List.disjoint_of_nodup_append hnd
      have hni : Param.id p ∉ alls := fun hmem => hdisj hmem (List.mem_cons_self _ _)
      have hall2 : insertSet alls (Param.id p) = alls ++ [Param.id p] :=
        insertSet_not_mem _ _ hni
      cases p with
      | required i =>
          simp only [Param.id] at hall2
          rw [checkOrderAux, if_pos]
          · simp [anyRequired]
          · rw [hall2]
            simp only [List.length_append, List.length_singleton]
            calc (insertSet reqs i).length ≤ reqs.length + 1 := insertSet_length_le _ _
              _ ≤ alls.length := hlen
              _ < alls.length + 1 := Nat.lt_succ_self _
      | optional i d =>
          simp only [Param.id] at hall2
          rw [checkOrderAux]
          have hnd2 : ((insertSet alls i) ++ rest.map Param.id).Nodup := by
            rw [hall2, List.append_assoc]
            simpa [Param.id] using hnd
          have := ih (insertSet alls i) reqs hnd2
            (by rw [hall2]; simp only [List.length_append, List.length_singleton]; omega)
          simpa [anyRequired, Param.id] using this

theorem checkOrderAux_balanced (ps : List Param) : ∀ alls reqs,
    (alls ++ ps.map Param.id).Nodup → reqs ⊆ alls → reqs.length = alls.length →
    (checkOrderAux ps alls reqs = .ok () ↔ hasReqAfterOpt ps = false) := by
  induction ps with
  | nil => intro alls reqs _ _ _; simp [checkOrderAux, hasReqAfterOpt]
  | cons p rest ih =>
      intro alls reqs hnd hsub hlen
      have hdisj : alls.Disjoint (Param.id p :: rest.map Param.id) := by
        simpa using List.disjoint_of_nodup_append hnd
      have hni : Param.id p ∉ alls := fun hmem => hdisj hmem (List.mem_cons_self _ _)
      have hnir : Param.id p ∉ reqs := fun hmem => hni (hsub hmem)
      have hall2 : insertSet alls (Param.id p) = alls ++ [Param.id p] :=
        insertSet_not_mem _ _ hni
      have hnd2 : ((alls ++ [Param.id p]) ++ rest.map Param.id).Nodup := by
        rw [List.append_assoc]
        simpa using hnd
      cases p with
      | required i =>
          simp only [Param.id] at hall2 hnir hnd2
          have hreq2 : insertSet reqs i = reqs ++ [i] := insertSet_not_mem _ _ hnir
          rw [checkOrderAux, if_neg]
          · have := ih (insertSet alls i) (insertSet reqs i)
              (by rw [hall2]; exact hnd2)
              (by
                rw [hreq2, hall2]
                intro a ha
                rcases List.mem_append.mp ha with h1 | h1
                · exact List.mem_append.mpr (Or.inl (hsub h1))
                · exact List.mem_append.mpr (Or.inr h1))
              (by rw [hreq2, hall2]; simp [hlen])
            simpa [hasReqAfterOpt] using this
          · rw [hreq2, hall2]
            simp [hlen]
      | optional i d =>
          simp only [Param.id] at hall2 hnd2
          rw [checkOrderAux]
          have := checkOrderAux_deficit rest (insertSet alls i) reqs
            (by rw [hall2]; exact hnd2)
            (by rw [hall2]
                simp only [List.length_append, List.length_singleton]; omega)
          simpa [hasReqAfterOpt] using this

theorem ownNames_insertTop (c : Ctx) (d : Decl) :
    ownNames (insertTop c d) = d.name :: ownNames c := by
  cases c <;> simp [insertTop, ownNames, Ctx.ownBindings]

theorem analyzeParam_ok (c : Ctx) (p : Param) (c2 : Ctx)
    (h : analyzeParam c p = .ok c2) :
    p.id ∉ ownNames c ∧ c2 = insertTop c (.param p.id) := by
  cases p with
  | required i =>
      rw [analyzeParam, addVariable] at h
      split_ifs at h with hm
      injection h with h2
      exact ⟨by simpa [Decl.name] using hm, h2.symm⟩
  | optional i d =>
      rw [analyzeParam] at h
      rcases he : analyzeExp c d with e | u <;> rw [he] at h <;> dsimp only at h
      · exact absurd h (by simp)
      · rw [addVariable] at h
        split_ifs at h with hm
        injection h with h2
        exact ⟨by simpa [Decl.name] using hm, h2.symm⟩

theorem analyzeParams_fresh (ps : List Param) : ∀ c c2,
    analyzeParams c ps = .ok c2 →
    (ps.map Param.id).Nodup ∧ ∀ n ∈ ps.map Param.id, n ∉ ownNames c := by
  induction ps with
  | nil => intro c c2 _; simp
  | cons p rest ih =>
      intro c c2 h
      rw [analyzeParams] at h
      rcases hp : analyzeParam c p with e | c1 <;> rw [hp] at h
      · exact absurd h (by simp)
      · obtain ⟨hfresh, hc1⟩ := analyzeParam_ok c p c1 hp
        obtain ⟨hnd, hmem⟩ := ih c1 c2 h
        have hown : ownNames c1 = p.id :: ownNames c := by
          rw [hc1, ownNames_insertTop]
          simp [Decl.name]
        constructor
        · refine List.nodup_cons.mpr ⟨fun hin => ?_, hnd⟩
          have := hmem p.id hin
          rw [hown] at this
          exact this (List.mem_cons_self _ _)
        · intro n hn
          rcases List.mem_cons.mp hn with rfl | hn2
          · exact hfresh
          · intro hin
            have := hmem n hn2
            rw [hown] at this
            exact this (List.mem_cons_of_mem _ hin)

/-- C2 counterexample.  A function whose parameter list puts a
required parameter strictly after an optional one of the same name:
analysis fails, but with `DuplicateDeclarationError` from the
parameter's own declaration step, not with `ParameterOrderError` (the
Set-based order scan never even fires for duplicate names). -/
theorem paramOrder_duplicate_cex :
    analyzeStmt rootCtx
        (.funDecl "f" [Param.optional "a" (Exp.numlit 1), Param.required "a"] Stmts.nil)
      = .error (.duplicateDeclaration "a")
    ∧ checkOrder [Param.optional "a" (Exp.numlit 1), Param.required "a"] = .ok () :=
  ⟨rfl, rfl⟩

/-- C2, amended.  Provided parameter analysis itself succeeds (in
particular the names are pairwise distinct, or the declaration fails
earlier with a different error), a required parameter after an
optional one makes the declaration fail with `ParameterOrderError`;
and when no required parameter follows an optional one, the
parameter-order check passes unconditionally. -/
theorem paramOrder_amended (ctx : Ctx) (id : String) (ps : List Param) (body : Stmts) :
    (∀ l1, analyzeParams (funScope ctx id) ps = .ok l1 → hasReqAfterOpt ps = true →
        analyzeStmt ctx (.funDecl id ps body) = .error .parameterOrder)
    ∧ (hasReqAfterOpt ps = false → checkOrder ps = .ok ()) := by
  constructor
  · intro l1 hps hbad
    obtain ⟨hnd, _⟩ := analyzeParams_fresh ps _ l1 hps
    have hiff := checkOrderAux_balanced ps [] [] (by simpa using hnd)
      (List.nil_subset _) rfl
    have hco : checkOrder ps = .error .parameterOrder := by
      rcases checkOrderAux_shape ps [] [] with h | h
      · rw [checkOrder]
        exact absurd hbad (by simp [hiff.mp h])
      · rw [checkOrder, h]
    rw [analyzeStmt, hps, hco]
  · intro h
    exact checkOrderAux_no_reqAfterOpt ps [] h

theorem paramOrder_amended_witness :
    analyzeStmt rootCtx
        (.funDecl "f" [Param.optional "a" (Exp.numlit 1), Param.required "b"] Stmts.nil)
      = .error .parameterOrder
    ∧ checkOrder [Param.required "x", Param.optional "y" (Exp.numlit 1)] = .ok () :=
  ⟨(paramOrder_amended rootCtx "f" [Param.optional "a" (Exp.numlit 1), Param.required "b"]
      Stmts.nil).1
      (Ctx.child [("b", Decl.param "b"), ("a", Decl.param "a")] false (some "f") rootCtx)
      rfl rfl,
   (paramOrder_amended rootCtx "f" [Param.required "x", Param.optional "y" (Exp.numlit 1)]
      Stmts.nil).2 rfl⟩

theorem foldReqNames_subset (ps : List Param) : ∀ alls reqs,
    reqs.Nodup → reqs ⊆ alls →
    (foldReqNames reqs ps).Nodup ∧ foldReqNames reqs ps ⊆ foldAllNames alls ps := by
  induction ps with
  | nil => intro alls reqs h1 h2; exact ⟨h1, h2⟩
  | cons p rest ih =>
      intro alls reqs h1 h2
      cases p with
      | required i =>
          rw [foldReqNames, foldAllNames]
          refine ih _ _ (insertSet_nodup _ _ h1) (fun a ha => ?_)
          rcases (mem_insertSet_iff _ _ _).mp ha with h3 | rfl
          · exact (mem_insertSet_iff _ _ _).mpr (Or.inl (h2 h3))
          · exact (mem_insertSet_iff _ _ _).mpr (Or.inr rfl)
      | optional i d =>
          rw [foldReqNames, foldAllNames]
          exact ih _ _ h1 (fun a ha => (mem_insertSet_iff _ _ _).mpr (Or.inl (h2 ha)))

theorem scanReq_le_scanAll (ps : List Param) : scanReqSize ps ≤ scanAllSize ps := by
  obtain ⟨hnd, hsub⟩ := foldReqNames_subset ps [] [] List.nodup_nil (List.nil_subset _)
  exact (hnd.subperm hsub).length_le

theorem checkOrderAux_mismatch (ps : List Param) : ∀ alls reqs k, ∀ hk : k < ps.length,
    (ps.get ⟨k, hk⟩).isReq = true →
    (foldReqNames reqs (ps.take (k + 1))).length < (foldAllNames alls (ps.take (k + 1))).length →
    checkOrderAux ps alls reqs = .error .parameterOrder := by
  induction ps with
  | nil => intro alls reqs k hk; exact absurd hk (by simp)
  | cons p rest ih =>
      intro alls reqs k hk hreq hlt
      cases k with
      | zero =>
          cases p with
          | optional i d => exact absurd hreq (by simp [List.get, Param.isReq])
          | required i =>
              simp only [List.take_succ_cons, List.take_zero, foldReqNames, foldAllNames,
                Param.id] at hlt
              rw [checkOrderAux, if_pos hlt]
      | succ j =>
          have hk2 : j < rest.length := by simpa using hk
          cases p with
          | required i =>
              simp only [List.take_succ_cons, foldReqNames, foldAllNames, Param.id] at hlt
              rw [checkOrderAux]
              split_ifs with hcond
              · rfl
              · exact ih _ _ j hk2 (by simpa [List.get] using hreq) hlt
          | optional i d =>
              simp only [List.take_succ_cons, foldReqNames, foldAllNames, Param.id] at hlt
              rw [checkOrderAux]
              exact ih _ _ j hk2 (by simpa [List.get] using hreq) hlt

/-- C3 counterexample.  For `def f(x, y = 1)` the full-list prefix
scan point has `requiredParameterNames.size = 1` but
`allParameterNames.size = 2`, yet analysis of the declaration
succeeds: the sizes are not equal at every prefix scan point, only at
those ending in a required parameter. -/
theorem prefix_invariant_cex :
    scanReqSize [Param.required "x", Param.optional "y" (Exp.numlit 1)] = 1
    ∧ scanAllSize [Param.required "x", Param.optional "y" (Exp.numlit 1)] = 2
    ∧ analyzeStmt rootCtx
        (.funDecl "f" [Param.required "x", Param.optional "y" (Exp.numlit 1)] Stmts.nil)
      = .ok (insertTop rootCtx
          (Decl.func "f" [Param.required "x", Param.optional "y" (Exp.numlit 1)])) :=
  ⟨rfl, rfl, rfl⟩

/-- C3, amended.  The invariant the code enforces quantifies only over
prefixes ending in a required parameter: whenever such a prefix has
`requiredParameterNames.size` different from
`allParameterNames.size`, analysis of the declaration fails. -/
theorem prefix_invariant_amended (ctx : Ctx) (id : String) (ps : List Param) (body : Stmts)
    (k : Nat) (hk : k < ps.length) (hreq : (ps.get ⟨k, hk⟩).isReq = true)
    (hne : scanReqSize (ps.take (k + 1)) ≠ scanAllSize (ps.take (k + 1))) :
    ∃ e, analyzeStmt ctx (.funDecl id ps body) = .error e := by
  have hle : scanReqSize (ps.take (k + 1)) ≤ scanAllSize (ps.take (k + 1)) :=
    scanReq_le_scanAll _
  have hlt := lt_of_le_of_ne hle hne
  have hco : checkOrderAux ps [] [] = .error .parameterOrder :=
    checkOrderAux_mismatch ps [] [] k hk hreq hlt
  rcases hps : analyzeParams (funScope ctx id) ps with e | l1
  · exact ⟨e, by rw [analyzeStmt, hps]⟩
  · refine ⟨.parameterOrder, ?_⟩
    rw [analyzeStmt, hps]
    simp [show checkOrder ps = Except.error Err.parameterOrder from hco]

theorem prefix_invariant_amended_witness :
    ∃ e, analyzeStmt rootCtx
        (.funDecl "g" [Param.optional "a" (Exp.numlit 1), Param.required "b"] Stmts.nil)
      = .error e :=
  prefix_invariant_amended rootCtx "g"
    [Param.optional "a" (Exp.numlit 1), Param.required "b"] Stmts.nil
    1 (by decide) (by decide) (by decide)
